import Mathlib

/-!
Shallow embedding of the two command-line tools of the repository
`ukraine-war-sentiment`:

* `src/preparation/get_data.py` — the paginated Reddit-comment fetcher
  (namespace `GetData`): `send_request`, `format_query_params`,
  `get_daily_comments` and the day-range orchestrator `main`.
* `src/processing/select_flair_labels.py` — the resumable interactive
  labeler (namespace `SelectFlair`): `save_answer`, `resolve_answer`,
  `prompt_options`, `label_keys` and `main`.

Network, filesystem and human interaction are modelled explicitly: the
HTTP API is an oracle function, retries consume an explicit list of
responses, the filesystem is a small state record, and the interactive
chooser is an oracle that can select a choice or raise a keyboard
interrupt.  Machine-level details (real sleeping, logging text) are
modelled by their observable effects (a list of sleep durations, the
trace of requests).
-/

namespace GetData

/-- A Reddit comment as used by `get_data.py`: only its `created_utc`
creation timestamp (UTC epoch seconds) is inspected by the code; the rest
of the record is opaque and modelled by `body`. -/
structure Comment where
  created_utc : Nat
  body : String
deriving Repr, DecidableEq

/-- The API metadata envelope.  The code reads only
`metadata["es"]["hits"]["total"]["value"]` (for logging), collapsed here
into the single field `total`. -/
structure Metadata where
  total : Nat
deriving Repr, DecidableEq

/-- Parsed JSON body of a successful response:
`metadata = response["metadata"] if "metadata" in response.keys() else None`
and `data = response["data"]`. -/
structure ApiBody where
  metadata : Option Metadata
  data : List Comment
deriving Repr, DecidableEq

/-- An HTTP response as seen by `send_request`: a status code and (when
the status is 200) a parsed JSON body. -/
structure HttpResponse where
  status_code : Nat
  json : ApiBody
deriving Repr, DecidableEq

/-- Result of `send_request`, together with the observable sleep events.
`ok` is the `return (metadata, data)` on HTTP 200; `fatal` is the
`raise NotImplementedError` on a non-200, non-retryable status;
`exhausted` means the given response stream ran out while the loop was
still retrying (the real loop would still be waiting for more
responses).  `sleeps` records, in order, the duration of every
`time.sleep(timeout)` executed. -/
inductive ReqResult where
  | ok (metadata : Option Metadata) (data : List Comment) (sleeps : List Nat)
  | fatal (status_code : Nat) (sleeps : List Nat)
  | exhausted (sleeps : List Nat)
deriving Repr, DecidableEq

/-- Prepend one sleep event to a `ReqResult`. -/
def ReqResult.consSleep (t : Nat) : ReqResult → ReqResult
  | .ok m d s => .ok m d (t :: s)
  | .fatal c s => .fatal c (t :: s)
  | .exhausted s => .exhausted (t :: s)

/-- The sleep events of a `ReqResult`. -/
def ReqResult.sleeps : ReqResult → List Nat
  | .ok _ _ s => s
  | .fatal _ s => s
  | .exhausted s => s

/-- `send_request(parameters, timeout)` from `get_data.py`, with the
successive responses of the (fake or real) server to the retried request
given as an explicit list.  Per loop iteration: HTTP 200 parses and
returns `(metadata, data)`; HTTP 429 and HTTP >= 500 sleep `timeout`
seconds and retry; any other status raises `NotImplementedError`. -/
def send_request (responses : List HttpResponse) (timeout : Nat) : ReqResult :=
  match responses with
  | [] => .exhausted []
  | r :: rest =>
    if r.status_code = 200 then
      .ok r.json.metadata r.json.data []
    else if r.status_code = 429 then
      (send_request rest timeout).consSleep timeout
    else if 500 ≤ r.status_code then
      (send_request rest timeout).consSleep timeout
    else
      .fatal r.status_code []

/-- A status code is retryable exactly when it is 429 or a server error
(>= 500). -/
def retryable (c : Nat) : Prop := c = 429 ∨ 500 ≤ c

instance (c : Nat) : Decidable (retryable c) := by
  unfold retryable; infer_instance

/-- The query-parameter dictionary built by `format_query_params`. -/
structure QueryParams where
  q : String
  subreddit : String
  metadata : Bool
  size : Nat
  after : Nat
  order : String
  before : Option Nat
deriving Repr, DecidableEq

/-- Module-level constant `QUERY_STRING` of `get_data.py`. -/
def QUERY_STRING : String := "-moscopole -moscone mosco*|kremlin*|russia*|putin*"

/-- Module-level constant `SUBREDDIT` of `get_data.py`. -/
def SUBREDDIT : String := "europe"

/-- Module-level constant `COMMENTS_FILENAME` of `get_data.py`. -/
def COMMENTS_FILENAME : String := "comments.jsonl"

/-- Module-level constant `METADATA_FILENAME` of `get_data.py`. -/
def METADATA_FILENAME : String := "metadata.json"

/-- `format_query_params(after, size, before, include_metadata)` from
`get_data.py` (the `query_str` and `subreddit` arguments keep their
module-level defaults, as in every call site).  `order` is always
`"asc"`; `before` is included only when not `None`, modelled by the
`Option`. -/
def format_query_params (after : Nat) (size : Nat) (before : Option Nat)
    (include_metadata : Bool) : QueryParams :=
  { q := QUERY_STRING
    subreddit := SUBREDDIT
    metadata := include_metadata
    size := size
    after := after
    order := "asc"
    before := before }

/-- Outcome of `get_daily_comments`.  `trace` records every request sent
inside the function paired with the page of data the API answered with,
in order, the initial request included.

* `done`: normal return `(metadata, comments)` after a page came back
  empty.
* `metadataErr`: the first response carried no `"metadata"` key, so the
  progress-logging access `metadata["es"]["hits"]["total"]["value"]`
  raises a `TypeError` on `None`.
* `indexErr`: `comments[-1]` raised `IndexError` because the list of
  comments accumulated so far is empty (which happens exactly when the
  first page is empty).
* `outOfFuel`: the supplied iteration fuel ran out with the loop still
  running (the real `while True` loop would keep going). -/
inductive FetchOutcome where
  | done (metadata : Metadata) (comments : List Comment)
      (trace : List (QueryParams × List Comment))
  | metadataErr (trace : List (QueryParams × List Comment))
  | indexErr (trace : List (QueryParams × List Comment))
  | outOfFuel (comments : List Comment)
      (trace : List (QueryParams × List Comment))
deriving Repr, DecidableEq

/-- The request/page trace of a fetch outcome. -/
def FetchOutcome.trace : FetchOutcome → List (QueryParams × List Comment)
  | .done _ _ tr => tr
  | .metadataErr tr => tr
  | .indexErr tr => tr
  | .outOfFuel _ tr => tr

/-- The comment sequence accumulated by a fetch outcome (empty for the
error outcomes, which never return a sequence). -/
def FetchOutcome.comments : FetchOutcome → List Comment
  | .done _ cs _ => cs
  | .metadataErr _ => []
  | .indexErr _ => []
  | .outOfFuel cs _ => cs

/-- The `while True` pagination loop inside `get_daily_comments`.  The
API is an oracle from query parameters to a parsed body (the retry layer
of `send_request` is below it and only ever surfaces HTTP-200 bodies).
Each iteration re-reads `comments[-1]`, requests the next page with
`after = int(comments[-1]["created_utc"]) + 1`, appends the page if it
is non-empty and breaks otherwise.  `fuel` bounds the number of
iterations so the function is total. -/
def fetch_loop (api : QueryParams → ApiBody) (before_ts batch_size : Nat)
    (md : Metadata) : Nat → List Comment →
    List (QueryParams × List Comment) → FetchOutcome
  | 0, comments, tr => .outOfFuel comments tr
  | fuel + 1, comments, tr =>
    match comments.getLast? with
    | none => .indexErr tr
    | some last =>
      let params := format_query_params (last.created_utc + 1) batch_size
        (some before_ts) false
      let data := (api params).data
      if data.isEmpty then
        .done md comments (tr ++ [(params, data)])
      else
        fetch_loop api before_ts batch_size md fuel (comments ++ data)
          (tr ++ [(params, data)])

/-- `get_daily_comments(after_datetime, before_datetime, batch_size,
timeout)` from `get_data.py`, with the day window already converted to
epoch-second bounds (`int(after_datetime.timestamp())` etc.) and the API
behind `send_request` abstracted as the oracle `api`.  The first request
asks for metadata; the loop then paginates as in `fetch_loop`. -/
def get_daily_comments (api : QueryParams → ApiBody)
    (after_ts before_ts batch_size fuel : Nat) : FetchOutcome :=
  let params := format_query_params after_ts batch_size (some before_ts) true
  let fst := api params
  match fst.metadata with
  | none => .metadataErr [(params, fst.data)]
  | some md =>
    fetch_loop api before_ts batch_size md fuel fst.data [(params, fst.data)]

/-- The comments delivered by a request/page trace, in order: the
concatenation of all pages. -/
def accum (tr : List (QueryParams × List Comment)) : List Comment :=
  (tr.map Prod.snd).flatten

/-- The off-by-one pagination discipline: in a request/page trace, every
request after the first carries `after` equal to the `created_utc` of
the last comment accumulated over all earlier pages, plus one. -/
def after_follows (tr : List (QueryParams × List Comment)) : Prop :=
  ∀ i, (h : i + 1 < tr.length) → ∃ last,
    (accum (tr.take (i + 1))).getLast? = some last ∧
    (tr[i + 1]).1.after = last.created_utc + 1

lemma accum_append (tr : List (QueryParams × List Comment))
    (x : QueryParams × List Comment) :
    accum (tr ++ [x]) = accum tr ++ x.2 := by
  simp [accum]

lemma after_follows_append (tr : List (QueryParams × List Comment))
    (p : QueryParams) (d : List Comment) (hinv : after_follows tr)
    (last : Comment) (hlast : (accum tr).getLast? = some last)
    (hp : p.after = last.created_utc + 1) :
    after_follows (tr ++ [(p, d)]) := by
  intro i h
  rw [List.length_append, List.length_singleton] at h
  rcases lt_or_eq_of_le (Nat.lt_succ_iff.mp h) with hlt | heq
  · obtain ⟨last', h1, h2⟩ := hinv i hlt
    refine ⟨last', ?_, ?_⟩
    · rwa [List.take_append_of_le_length (Nat.le_of_lt hlt)]
    · rwa [List.getElem_append_left hlt]
  · refine ⟨last, ?_, ?_⟩
    · rw [heq, List.take_left tr [(p, d)]]; exact hlast
    · rw [List.getElem_concat_length tr (p, d) (i + 1) heq]; exact hp

/-- Loop invariant carrying C1 through `fetch_loop`: if the comments
accumulated so far are exactly the concatenation of the trace's pages
and the trace so far obeys the off-by-one discipline, so does the trace
of the final outcome. -/
lemma fetch_loop_after_follows (api : QueryParams → ApiBody)
    (b bs : Nat) (md : Metadata) :
    ∀ fuel comments tr, comments = accum tr → after_follows tr →
      after_follows (fetch_loop api b bs md fuel comments tr).trace := by
  intro fuel
  induction fuel with
  | zero => intro comments tr hacc hinv; exact hinv
  | succ n ih =>
    intro comments tr hacc hinv
    rw [fetch_loop]
    cases hlast : comments.getLast? with
    | none => exact hinv
    | some last =>
      simp only
      set params := format_query_params (last.created_utc + 1) bs (some b) false
        with hparams
      have hafter : params.after = last.created_utc + 1 := rfl
      have happ : after_follows (tr ++ [(params, (api params).data)]) :=
        after_follows_append tr params (api params).data hinv last
          (hacc ▸ hlast) hafter
      by_cases hempty : (api params).data.isEmpty
      · simp only [hempty, if_true]; exact happ
      · simp only [hempty, if_false]
        exact ih (comments ++ (api params).data) (tr ++ [(params, (api params).data)])
          (by rw [accum_append, hacc]) happ

/-- C1: In the paginated fetch loop, every request after the first uses
`after` equal to the creation timestamp of the last comment accumulated
so far plus one: for any API oracle, window bounds, batch size and fuel,
the request/page trace of `get_daily_comments` satisfies
`after_follows`, i.e. if the last accumulated comment before a request
has timestamp `T`, that request carries `after = T + 1`. -/
theorem get_daily_comments_after_plus_one (api : QueryParams → ApiBody)
    (after_ts before_ts batch_size fuel : Nat) :
    after_follows
      (get_daily_comments api after_ts before_ts batch_size fuel).trace := by
  rw [get_daily_comments]
  cases hm : (api (format_query_params after_ts batch_size (some before_ts)
      true)).metadata with
  | none =>
    intro i h
    simp [FetchOutcome.trace] at h
  | some md =>
    apply fetch_loop_after_follows
    · simp [accum]
    · intro i h
      simp at h

/-- A concrete two-page API used to witness the fetch-loop theorems:
page one is the two comments below, every later window is empty. -/
def wComments : List Comment := [⟨10, "c10"⟩, ⟨20, "c20"⟩]

/-- A concrete API oracle honouring the `after` lower bound and
ascending order: it filters `wComments` by `after` and truncates to the
requested page size. -/
def wApi (p : QueryParams) : ApiBody :=
  { metadata := some ⟨2⟩
    data := (wComments.filter (fun c => p.after ≤ c.created_utc)).take p.size }

/-- Witness for C1: the off-by-one discipline holds on the concrete
trace produced by running `get_daily_comments` against `wApi`. -/
theorem get_daily_comments_after_plus_one_witness :
    after_follows (get_daily_comments wApi 0 86400 1 10).trace :=
  get_daily_comments_after_plus_one wApi 0 86400 1 10

/-- `true` exactly on the normal-return outcome. -/
def FetchOutcome.isDone : FetchOutcome → Bool
  | .done _ _ _ => true
  | _ => false

/-- The metadata-free view of an outcome: a constructor tag together
with the comments and the trace.  Two outcomes with the same shape
differ at most in the metadata they report. -/
def FetchOutcome.shape :
    FetchOutcome → Nat × List Comment × List (QueryParams × List Comment)
  | .done _ cs tr => (0, cs, tr)
  | .metadataErr tr => (1, [], tr)
  | .indexErr tr => (2, [], tr)
  | .outOfFuel cs tr => (3, cs, tr)

lemma flatten_length_filter (pgs : List (List Comment)) :
    pgs.flatten.length =
      ((pgs.filter (fun pg => !pg.isEmpty)).map List.length).sum := by
  induction pgs with
  | nil => rfl
  | cons pg rest ih =>
    by_cases hpg : pg.isEmpty
    · have : pg = [] := List.isEmpty_iff.mp hpg
      subst this
      simpa using ih
    · simp only [List.flatten_cons, List.length_append, List.filter_cons,
        hpg, Bool.not_false, List.map_cons, List.sum_cons, ih]
      simp [hpg]

/-- With an empty accumulated comment list the loop can only run out of
fuel or raise `IndexError`; it never returns normally. -/
lemma fetch_loop_nil (api : QueryParams → ApiBody) (b bs : Nat)
    (md : Metadata) (fuel : Nat) (tr : List (QueryParams × List Comment)) :
    fetch_loop api b bs md fuel [] tr = .outOfFuel [] tr ∨
      fetch_loop api b bs md fuel [] tr = .indexErr tr := by
  cases fuel with
  | zero => exact Or.inl rfl
  | succ n => exact Or.inr rfl

/-- Loop invariant for C2: if the comments accumulated so far are the
concatenation of the trace's pages and every page so far is non-empty,
then a normal return yields exactly the concatenation of the final
trace's pages, whose last page is empty and whose earlier pages are all
non-empty. -/
lemma fetch_loop_done_spec (api : QueryParams → ApiBody) (b bs : Nat)
    (md : Metadata) :
    ∀ fuel comments tr md' cs tr',
      comments = accum tr →
      (∀ pg ∈ tr.map Prod.snd, pg ≠ []) →
      fetch_loop api b bs md fuel comments tr = .done md' cs tr' →
      cs = accum tr' ∧ (∃ p, tr'.getLast? = some (p, [])) ∧
        (∀ pg ∈ tr'.dropLast.map Prod.snd, pg ≠ []) := by
  intro fuel
  induction fuel with
  | zero => intro comments tr md' cs tr' _ _ h; exact absurd h (by simp [fetch_loop])
  | succ n ih =>
    intro comments tr md' cs tr' hacc hne h
    rw [fetch_loop] at h
    cases hlast : comments.getLast? with
    | none => rw [hlast] at h; exact absurd h (by simp)
    | some last =>
      rw [hlast] at h
      simp only at h
      set params := format_query_params (last.created_utc + 1) bs (some b) false
        with hparams
      by_cases hempty : (api params).data.isEmpty
      · rw [if_pos hempty] at h
        have hdata : (api params).data = [] := List.isEmpty_iff.mp hempty
        rw [FetchOutcome.done.injEq] at h
        obtain ⟨_, hcs, htr⟩ := h
        subst hcs; subst htr
        refine ⟨?_, ⟨params, ?_⟩, ?_⟩
        · rw [accum_append, hdata, List.append_nil, hacc]
        · rw [hdata]; simp
        · rw [List.dropLast_concat]; exact hne
      · rw [if_neg hempty] at h
        have hdata : (api params).data ≠ [] := fun hc => hempty (by simp [hc])
        refine ih (comments ++ (api params).data) (tr ++ [(params, (api params).data)])
          md' cs tr' (by rw [accum_append, hacc]) ?_ h
        intro pg hpg
        rw [List.map_append, List.mem_append] at hpg
        rcases hpg with hpg | hpg
        · exact hne pg hpg
        · simp only [List.map_cons, List.map_nil, List.mem_singleton] at hpg
          rw [hpg]; exact hdata

/-- C2 (amended): provided the fetch loop returns normally, the comment
sequence is exactly the concatenation of the pages of its trace, its
length is the sum of the sizes of the non-empty pages, the final
requested page is empty (the sole termination condition) and every
earlier page is non-empty; the loop's behaviour is independent of the
metadata value (no comparison against the reported total).  An empty
very first page, however, does not terminate the loop normally with
zero comments: conjunct three shows the outcome is then never `done`
(the code raises `IndexError`). -/
theorem get_daily_comments_done_spec :
    (∀ api after_ts before_ts batch_size fuel md cs tr,
      get_daily_comments api after_ts before_ts batch_size fuel =
          .done md cs tr →
      cs = accum tr ∧
        cs.length =
          (((tr.map Prod.snd).filter (fun pg => !pg.isEmpty)).map
            List.length).sum ∧
        (∃ p, tr.getLast? = some (p, [])) ∧
        (∀ pg ∈ tr.dropLast.map Prod.snd, pg ≠ [])) ∧
    (∀ api b bs fuel md₁ md₂ cs tr,
      (fetch_loop api b bs md₁ fuel cs tr).shape =
        (fetch_loop api b bs md₂ fuel cs tr).shape) ∧
    (∀ api after_ts before_ts batch_size fuel,
      (api (format_query_params after_ts batch_size (some before_ts)
          true)).data = [] →
      (get_daily_comments api after_ts before_ts batch_size fuel).isDone =
        false) := by
  refine ⟨?_, ?_, ?_⟩
  · intro api a b bs fuel md cs tr h
    rw [get_daily_comments] at h
    cases hm : (api (format_query_params a bs (some b) true)).metadata with
    | none => rw [hm] at h; exact absurd h (by simp)
    | some md₀ =>
      rw [hm] at h
      simp only at h
      set p0 := format_query_params a bs (some b) true with hp0
      by_cases hfst : (api p0).data = []
      · rw [hfst] at h
        rcases fetch_loop_nil api b bs md₀ fuel [(p0, [])] with hcase | hcase <;>
          rw [hcase] at h <;> exact absurd h (by simp)
      · have hspec := fetch_loop_done_spec api b bs md₀ fuel (api p0).data
          [(p0, (api p0).data)] md cs tr (by simp [accum]) ?_ h
        · obtain ⟨h1, h2, h3⟩ := hspec
          refine ⟨h1, ?_, h2, h3⟩
          rw [h1, accum, List.length_flatten]
          · exact flatten_length_filter (tr.map Prod.snd) ▸ by
              rw [List.length_flatten]
        · intro pg hpg
          simp only [List.map_cons, List.map_nil, List.mem_singleton] at hpg
          rw [hpg]; exact hfst
  · intro api b bs fuel
    induction fuel with
    | zero => intro md₁ md₂ cs tr; rfl
    | succ n ih =>
      intro md₁ md₂ cs tr
      rw [fetch_loop, fetch_loop]
      cases cs.getLast? with
      | none => rfl
      | some last =>
        simp only
        by_cases hempty : (api (format_query_params (last.created_utc + 1) bs
            (some b) false)).data.isEmpty
        · rw [if_pos hempty, if_pos hempty]; rfl
        · rw [if_neg hempty, if_neg hempty]; exact ih md₁ md₂ _ _
  · intro api a b bs fuel hfst
    rw [get_daily_comments]
    cases hm : (api (format_query_params a bs (some b) true)).metadata with
    | none => rfl
    | some md₀ =>
      simp only
      rw [hfst]
      rcases fetch_loop_nil api b bs md₀ fuel
          [(format_query_params a bs (some b) true, [])] with hcase | hcase <;>
        rw [hcase] <;> rfl

/-- An API oracle whose every page is empty (metadata present), the
input on which the original C2 fails. -/
def emptyApi : QueryParams → ApiBody := fun _ => ⟨some ⟨0⟩, []⟩

/-- Counterexample to C2 as stated: against an API whose very first
page is empty, the fetch loop does not terminate normally with zero
comments — it raises `IndexError` at `comments[-1]` on the first loop
iteration. -/
theorem get_daily_comments_empty_first_page_not_done :
    (get_daily_comments emptyApi 0 86400 100 5).isDone = false ∧
      get_daily_comments emptyApi 0 86400 100 5 =
        .indexErr [(format_query_params 0 100 (some 86400) true, [])] :=
  ⟨rfl, rfl⟩

/-- The trace produced by running `get_daily_comments` against `wApi`
with batch size 1: two singleton pages, then the empty page that
terminates the loop. -/
def wTrace : List (QueryParams × List Comment) :=
  [(format_query_params 0 1 (some 86400) true, [⟨10, "c10"⟩]),
   (format_query_params 11 1 (some 86400) false, [⟨20, "c20"⟩]),
   (format_query_params 21 1 (some 86400) false, [])]

/-- Witness for C2 (amended): a concrete normal run against `wApi`
satisfies the characterization. -/
theorem get_daily_comments_done_spec_witness :
    [Comment.mk 10 "c10", Comment.mk 20 "c20"] = accum wTrace ∧
      [Comment.mk 10 "c10", Comment.mk 20 "c20"].length =
        (((wTrace.map Prod.snd).filter (fun pg => !pg.isEmpty)).map
          List.length).sum ∧
      (∃ p, wTrace.getLast? = some (p, [])) ∧
      (∀ pg ∈ wTrace.dropLast.map Prod.snd, pg ≠ []) :=
  get_daily_comments_done_spec.1 wApi 0 86400 1 10 ⟨2⟩
    [Comment.mk 10 "c10", Comment.mk 20 "c20"] wTrace rfl

/-- Timestamp order on comments: earlier-or-equal creation time. -/
def tsLE (a b : Comment) : Prop := a.created_utc ≤ b.created_utc

instance (a b : Comment) : Decidable (tsLE a b) := by
  unfold tsLE; infer_instance

/-- In a timestamp-sorted list, every element is bounded by the last
one. -/
lemma pairwise_le_getLast :
    ∀ l : List Comment, l.Pairwise tsLE → ∀ last, l.getLast? = some last →
      ∀ c ∈ l, c.created_utc ≤ last.created_utc := by
  intro l
  induction l with
  | nil => intro _ last h; simp at h
  | cons a t ih =>
    intro hp last hlast c hc
    rw [List.pairwise_cons] at hp
    cases t with
    | nil =>
      simp at hlast hc
      rw [hc, hlast]
    | cons b t' =>
      rw [List.getLast?_cons_cons] at hlast
      rcases List.mem_cons.mp hc with hca | hct
      · have hmem : last ∈ b :: t' := List.mem_of_mem_getLast? (by
          rw [Option.mem_def]; exact hlast)
        rw [hca]
        exact hp.1 last hmem
      · exact ih hp.2 last hlast c hct

/-- Loop invariant for C3: if every page the API returns is internally
sorted by `created_utc` and respects the requested `after` lower bound
(inclusive-or-equal semantics), a timestamp-sorted accumulated sequence
stays sorted through the loop. -/
lemma fetch_loop_sorted (api : QueryParams → ApiBody) (b bs : Nat)
    (md : Metadata)
    (hasc : ∀ p, ((api p).data).Pairwise tsLE)
    (hbound : ∀ p, ∀ c ∈ (api p).data, p.after ≤ c.created_utc) :
    ∀ fuel comments tr, comments.Pairwise tsLE →
      ((fetch_loop api b bs md fuel comments tr).comments).Pairwise tsLE := by
  intro fuel
  induction fuel with
  | zero => intro comments tr hp; exact hp
  | succ n ih =>
    intro comments tr hp
    rw [fetch_loop]
    cases hlast : comments.getLast? with
    | none => exact List.Pairwise.nil
    | some last =>
      simp only
      set params := format_query_params (last.created_utc + 1) bs (some b) false
        with hparams
      by_cases hempty : (api params).data.isEmpty
      · rw [if_pos hempty]; exact hp
      · rw [if_neg hempty]
        refine ih _ _ (List.pairwise_append.mpr ⟨hp, hasc params, ?_⟩)
        intro x hx y hy
        have hxle : x.created_utc ≤ last.created_utc :=
          pairwise_le_getLast comments hp last hlast x hx
        have hyge : last.created_utc + 1 ≤ y.created_utc := hbound params y hy
        exact le_trans hxle (le_trans (Nat.le_succ _) hyge)

/-- C3: assuming the API returns each page sorted ascending by creation
timestamp (as requested via `order=asc`) and honouring the
inclusive-or-equal `after` lower bound, the comment sequence assembled
by the fetch loop has non-decreasing creation timestamps: no comment's
timestamp is less than the previous comment's. -/
theorem get_daily_comments_sorted (api : QueryParams → ApiBody)
    (hasc : ∀ p, ((api p).data).Pairwise tsLE)
    (hbound : ∀ p, ∀ c ∈ (api p).data, p.after ≤ c.created_utc)
    (after_ts before_ts batch_size fuel : Nat) :
    ((get_daily_comments api after_ts before_ts batch_size
        fuel).comments).Pairwise tsLE := by
  rw [get_daily_comments]
  cases hm : (api (format_query_params after_ts batch_size (some before_ts)
      true)).metadata with
  | none => exact List.Pairwise.nil
  | some md =>
    exact fetch_loop_sorted api before_ts batch_size md hasc hbound fuel _ _
      (hasc _)

/-- Witness for C3: the concrete API `wApi` satisfies both hypotheses
(its pages are sorted and filtered by the `after` bound), and the
assembled sequence of a concrete run is timestamp-sorted. -/
theorem get_daily_comments_sorted_witness :
    ((get_daily_comments wApi 0 86400 1 10).comments).Pairwise tsLE := by
  refine get_daily_comments_sorted wApi ?_ ?_ 0 86400 1 10
  · intro p
    refine List.Pairwise.sublist (List.take_sublist _ _) ?_
    exact List.Pairwise.filter _ (by decide)
  · intro p c hc
    have hmem : c ∈ wComments.filter (fun c => decide (p.after ≤ c.created_utc)) :=
      List.mem_of_mem_take hc
    have := List.of_mem_filter hmem
    exact of_decide_eq_true this

lemma send_request_retryable_step (x : HttpResponse) (l : List HttpResponse)
    (t : Nat) (hx : retryable x.status_code) :
    send_request (x :: l) t = (send_request l t).consSleep t := by
  rw [send_request]
  rcases hx with h429 | h500
  · rw [if_neg (by omega), if_pos h429]
  · rw [if_neg (by omega), if_neg (by omega), if_pos h500]

/-- C4: `send_request` returns a parsed `(metadata, data)` pair only on
HTTP 200; any prefix of retryable responses (429 or >= 500) produces
exactly one `timeout`-second sleep per response — no backoff growth, no
retry cap — and is never surfaced; a non-200 non-retryable response
raises immediately (with no sleeps when it comes first); and a stream
of retryable responses alone never returns at all. -/
theorem send_request_spec :
    (∀ t (pre : List HttpResponse) (r : HttpResponse) rest,
      (∀ x ∈ pre, retryable x.status_code) → r.status_code = 200 →
      send_request (pre ++ r :: rest) t =
        .ok r.json.metadata r.json.data (List.replicate pre.length t)) ∧
    (∀ t (pre : List HttpResponse) (r : HttpResponse) rest,
      (∀ x ∈ pre, retryable x.status_code) →
      r.status_code ≠ 200 → ¬ retryable r.status_code →
      send_request (pre ++ r :: rest) t =
        .fatal r.status_code (List.replicate pre.length t)) ∧
    (∀ t (l : List HttpResponse),
      (∀ x ∈ l, retryable x.status_code) →
      send_request l t = .exhausted (List.replicate l.length t)) := by
  refine ⟨?_, ?_, ?_⟩
  · intro t pre
    induction pre with
    | nil =>
      intro r rest _ h200
      rw [List.nil_append, send_request, if_pos h200]; rfl
    | cons x pre ih =>
      intro r rest hpre h200
      rw [List.cons_append,
        send_request_retryable_step x (pre ++ r :: rest) t
          (hpre x (List.mem_cons_self x _)),
        ih r rest (fun y hy => hpre y (List.mem_cons_of_mem x hy)) h200]
      rfl
  · intro t pre
    induction pre with
    | nil =>
      intro r rest _ h200 hnr
      rw [List.nil_append, send_request, if_neg h200,
        if_neg (fun hc => hnr (Or.inl hc)), if_neg (fun hc => hnr (Or.inr hc))]
      rfl
    | cons x pre ih =>
      intro r rest hpre h200 hnr
      rw [List.cons_append,
        send_request_retryable_step x (pre ++ r :: rest) t
          (hpre x (List.mem_cons_self x _)),
        ih r rest (fun y hy => hpre y (List.mem_cons_of_mem x hy)) h200 hnr]
      rfl
  · intro t l
    induction l with
    | nil => intro _; rfl
    | cons x l ih =>
      intro hl
      rw [send_request_retryable_step x l t (hl x (List.mem_cons_self x _)),
        ih (fun y hy => hl y (List.mem_cons_of_mem x hy))]
      rfl

/-- A rate-limited response. -/
def resp429 : HttpResponse := ⟨429, ⟨none, []⟩⟩

/-- A successful response carrying metadata and one comment. -/
def resp200 : HttpResponse := ⟨200, ⟨some ⟨7⟩, [⟨10, "c10"⟩]⟩⟩

/-- Witness for C4: the response sequence 429, 429, 200 yields exactly
two sleeps of `timeout` seconds and one parsed result, with no
exception raised. -/
theorem send_request_spec_witness :
    send_request [resp429, resp429, resp200] 10 =
      .ok (some ⟨7⟩) [⟨10, "c10"⟩] (List.replicate 2 10) :=
  send_request_spec.1 10 [resp429, resp429] resp200 [] (by decide) rfl

/-- Filesystem state seen by the orchestrator: the paths that exist as
directories and the paths that exist as files. -/
structure Fs where
  dirs : List String
  files : List String
deriving Repr, DecidableEq

/-- Observable outcome of one run of the orchestrator: the final
filesystem, the file paths written during the run (in order), the days
whose fetch loop was actually started (each such day performs at least
one network request), and the uncaught exception that aborted the run,
if any (`some code` models the `NotImplementedError` escaping from
`send_request`, or any other exception escaping `get_daily_comments`). -/
structure RunResult where
  fs : Fs
  written : List String
  fetched : List Nat
  fatal : Option Nat
deriving Repr, DecidableEq

/-- `dest_folder.joinpath(target_date_str)`: the per-day output folder.
The `%Y-%m-%d` date string is modelled by the day number's decimal
representation (an injective naming of days, which is all the code
relies on). -/
def day_folder (dest : String) (day : Nat) : String :=
  dest ++ "/" ++ toString day

/-- The `for` loop of `main` in `get_data.py`, over the list of day
windows.  Per day: skip (log only) when the target folder exists, is a
directory and `force_rewrite` is false; otherwise run the fetch loop
(abstracted as the oracle `fetch`, which either returns
`(metadata, comments)` or raises), and only after it returns create the
folder (`mkdir(parents=True, exist_ok=True)`) and write the comments
and metadata files.  An exception from the fetch loop propagates: the
run aborts with the filesystem untouched for that day. -/
def run_days (fetch : Nat → Except Nat (Metadata × List Comment))
    (dest : String) (force_rewrite : Bool) :
    List Nat → Fs → RunResult
  | [], fs => ⟨fs, [], [], none⟩
  | d :: rest, fs =>
    let folder := day_folder dest d
    if folder ∈ fs.dirs ∧ ¬ force_rewrite then
      run_days fetch dest force_rewrite rest fs
    else
      match fetch d with
      | .error code => ⟨fs, [], [d], some code⟩
      | .ok _ =>
        let cfile := folder ++ "/" ++ COMMENTS_FILENAME
        let mfile := folder ++ "/" ++ METADATA_FILENAME
        let fs' : Fs := ⟨folder :: fs.dirs, cfile :: mfile :: fs.files⟩
        let r := run_days fetch dest force_rewrite rest fs'
        ⟨r.fs, cfile :: mfile :: r.written, d :: r.fetched, r.fatal⟩

/-- The day windows `main` iterates over: `pairwise(date_range)`.  With
no end date, `pd.date_range(start, periods=2)` yields exactly one
window starting at `start`; with an end date, the windows start at
`start, start+1, ..., end-1` (the end date is exclusive as a window
start). -/
def processed_days (start_day : Nat) (end_day : Option Nat) : List Nat :=
  match end_day with
  | none => [start_day]
  | some e => List.range' start_day (e - start_day)

/-- `main(start_date, end_date, batch_size, timeout, dest_folder,
force_rewrite)` from `get_data.py`, with the per-day fetch loop
abstracted as `fetch` and dates as day numbers. -/
def main (fetch : Nat → Except Nat (Metadata × List Comment))
    (start_day : Nat) (end_day : Option Nat) (dest : String)
    (force_rewrite : Bool) (fs : Fs) : RunResult :=
  run_days fetch dest force_rewrite (processed_days start_day end_day) fs

lemma run_days_dirs_mono (fetch : Nat → Except Nat (Metadata × List Comment))
    (dest : String) (force_rewrite : Bool) :
    ∀ days fs, fs.dirs ⊆ (run_days fetch dest force_rewrite days fs).fs.dirs := by
  intro days
  induction days with
  | nil => intro fs; exact fun a h => h
  | cons d rest ih =>
    intro fs
    rw [run_days]
    by_cases hskip : day_folder dest d ∈ fs.dirs ∧ ¬ force_rewrite
    · rw [if_pos hskip]; exact ih fs
    · rw [if_neg hskip]
      cases fetch d with
      | error code => exact fun a h => h
      | ok v =>
        intro a ha
        exact ih _ (List.mem_cons_of_mem _ ha)

/-- A completed run leaves the folder of every processed day in the
filesystem. -/
lemma run_days_complete_dirs (fetch : Nat → Except Nat (Metadata × List Comment))
    (dest : String) (force_rewrite : Bool) :
    ∀ days fs, (run_days fetch dest force_rewrite days fs).fatal = none →
      ∀ d ∈ days, day_folder dest d ∈
        (run_days fetch dest force_rewrite days fs).fs.dirs := by
  intro days
  induction days with
  | nil => intro fs _ d hd; simp at hd
  | cons d₀ rest ih =>
    intro fs hfatal d hd
    rw [run_days] at hfatal ⊢
    by_cases hskip : day_folder dest d₀ ∈ fs.dirs ∧ ¬ force_rewrite
    · rw [if_pos hskip] at hfatal ⊢
      rcases List.mem_cons.mp hd with hdd | hdrest
      · subst hdd
        exact run_days_dirs_mono fetch dest force_rewrite rest fs hskip.1
      · exact ih fs hfatal d hdrest
    · rw [if_neg hskip] at hfatal ⊢
      cases hfetch : fetch d₀ with
      | error code => exact absurd hfatal (by simp [hfetch])
      | ok v =>
        rw [hfetch] at hfatal
        rcases List.mem_cons.mp hd with hdd | hdrest
        · subst hdd
          exact run_days_dirs_mono fetch dest force_rewrite rest _
            (List.mem_cons_self _ _)
        · exact ih _ hfatal d hdrest

/-- When every day's folder already exists and `force_rewrite` is
false, the run is a pure sequence of skips: nothing is fetched, nothing
is written, the filesystem is unchanged. -/
lemma run_days_skip_all (fetch : Nat → Except Nat (Metadata × List Comment))
    (dest : String) :
    ∀ days fs, (∀ d ∈ days, day_folder dest d ∈ fs.dirs) →
      run_days fetch dest false days fs = ⟨fs, [], [], none⟩ := by
  intro days
  induction days with
  | nil => intro fs _; rfl
  | cons d rest ih =>
    intro fs hall
    rw [run_days,
      if_pos ⟨hall d (List.mem_cons_self _ _), by simp⟩]
    exact ih fs (fun x hx => hall x (List.mem_cons_of_mem d hx))

/-- C5: rerunning the orchestrator over the same date range with
`force_rewrite` false, after a first run that completed, performs zero
network requests (no day is fetched) and writes zero files; the
filesystem is left exactly as the first run left it.  This holds for
any second-run fetch oracle — it is never consulted. -/
theorem main_idempotent (fetch fetch' : Nat → Except Nat (Metadata × List Comment))
    (start_day : Nat) (end_day : Option Nat) (dest : String) (fs : Fs)
    (hfatal : (main fetch start_day end_day dest false fs).fatal = none) :
    main fetch' start_day end_day dest false
        (main fetch start_day end_day dest false fs).fs =
      ⟨(main fetch start_day end_day dest false fs).fs, [], [], none⟩ :=
  run_days_skip_all fetch' dest (processed_days start_day end_day) _
    (run_days_complete_dirs fetch dest false (processed_days start_day end_day)
      fs hfatal)

/-- A fetch oracle that always succeeds with an empty day. -/
def okFetch : Nat → Except Nat (Metadata × List Comment) :=
  fun _ => .ok (⟨0⟩, [])

/-- Witness for C5: a concrete two-day range fetched into an empty
filesystem; the second run is a no-op. -/
theorem main_idempotent_witness :
    main okFetch 0 (some 2) "data/comments/raw" false
        (main okFetch 0 (some 2) "data/comments/raw" false ⟨[], []⟩).fs =
      ⟨(main okFetch 0 (some 2) "data/comments/raw" false ⟨[], []⟩).fs,
        [], [], none⟩ :=
  main_idempotent okFetch okFetch 0 (some 2) "data/comments/raw" ⟨[], []⟩ rfl

/-- C6: if a day's fetch loop raises, nothing is created for that day:
the filesystem is returned untouched (no folder, no comments file, no
metadata file), nothing is written, the run aborts immediately after
that day, and any rerun over a range starting at that day attempts its
fetch loop again (the skip logic cannot trigger, since the folder was
never created). -/
theorem main_no_partial_day (fetch : Nat → Except Nat (Metadata × List Comment))
    (dest : String) (force_rewrite : Bool) (d : Nat) (rest : List Nat)
    (fs : Fs) (code : Nat) (herr : fetch d = .error code)
    (hdir : day_folder dest d ∉ fs.dirs) :
    run_days fetch dest force_rewrite (d :: rest) fs =
      ⟨fs, [], [d], some code⟩ ∧
    (∀ fetch'' : Nat → Except Nat (Metadata × List Comment),
      d ∈ (run_days fetch'' dest false (d :: rest) fs).fetched) := by
  constructor
  · rw [run_days, if_neg (fun hc => hdir hc.1), herr]
  · intro fetch''
    rw [run_days, if_neg (fun hc => hdir hc.1)]
    cases fetch'' d with
    | error code => exact List.mem_cons_self _ _
    | ok v => exact List.mem_cons_self _ _

/-- A fetch oracle that always raises (e.g. a fatal HTTP 404 surfacing
as `NotImplementedError`). -/
def errFetch : Nat → Except Nat (Metadata × List Comment) :=
  fun _ => .error 404

/-- Witness for C6: a concrete aborted day leaves the filesystem
untouched and is re-attempted on rerun. -/
theorem main_no_partial_day_witness :
    run_days errFetch "data/comments/raw" false [0, 1] ⟨[], []⟩ =
      ⟨⟨[], []⟩, [], [0], some 404⟩ ∧
    (∀ fetch'' : Nat → Except Nat (Metadata × List Comment),
      0 ∈ (run_days fetch'' "data/comments/raw" false [0, 1] ⟨[], []⟩).fetched) :=
  main_no_partial_day errFetch "data/comments/raw" false 0 [1] ⟨[], []⟩ 404
    rfl (by decide)

end GetData


namespace SelectFlair

/-- One labelling decision `{key, value, needs_review}` as produced by
`resolve_answer` in `select_flair_labels.py`.  `value` is `none` when
the human rejected every candidate; `needs_review` keeps the template
default `False` (no code path sets it). -/
structure Record where
  key : String
  value : Option String
  needs_review : Bool
deriving Repr, DecidableEq

/-- State of the destination log path on disk. -/
inductive PathState where
  | absent
  | directory
  | file (lines : List Record)
deriving Repr, DecidableEq

/-- Index of the last ':' in a character list, if any. -/
def last_colon_idx : List Char → Option Nat
  | [] => none
  | c :: rest =>
    match last_colon_idx rest with
    | some j => some (j + 1)
    | none => if c = ':' then some 0 else none

/-- One attempt of the pattern `(?<=\()(.+)(?=\:)` at a fixed start
position, given the characters after the '(' of the lookbehind: the
greedy `.+` cannot cross a newline and backtracks until the lookahead
character is the last ':' of the newline-free prefix, with at least one
character matched. -/
def match_at (t : List Char) : Option (List Char) :=
  let pref := t.takeWhile (fun c => c ≠ '\n')
  match last_colon_idx pref with
  | some j => if 1 ≤ j then some (pref.take j) else none
  | none => none

/-- `re.search(REGEX_PATTERN, s)` for the fixed pattern
`(?<=\()(.+)(?=\:)`: scan start positions left to right, keeping only
those preceded by '(', and return the first successful match. -/
def regex_search : List Char → Option (List Char)
  | [] => none
  | c :: rest =>
    if c = '(' then
      match match_at rest with
      | some m => some m
      | none => regex_search rest
    else regex_search rest

/-- `resolve_answer(flair_id, prompt_selection)` with the chooser's
dictionary already unpacked to the selected choice.  A falsy selection
(`None`, or the empty string) stores `value = None`; otherwise the
canonical label is extracted with the regex, and a failed match makes
`.group(1)` raise `AttributeError`, modelled by `.error`. -/
def resolve_answer (flair_id : String) (sel : Option String) :
    Except Unit Record :=
  match sel with
  | none => .ok ⟨flair_id, none, false⟩
  | some s =>
    if s = "" then .ok ⟨flair_id, none, false⟩
    else
      match regex_search s.data with
      | some m => .ok ⟨flair_id, some (String.mk m), false⟩
      | none => .error ()

/-- Stable insertion for descending sort by count: `x` goes before the
first element whose count is at most `x`'s. -/
def insert_desc (x : String × Nat) : List (String × Nat) → List (String × Nat)
  | [] => [x]
  | y :: ys => if y.2 ≤ x.2 then x :: y :: ys else y :: insert_desc x ys

/-- `sorted(values.items(), key=lambda x: x[1], reverse=True)`: stable
descending sort by occurrence count. -/
def sorted_desc (values : List (String × Nat)) : List (String × Nat) :=
  values.foldr insert_desc []

/-- The display string `"({}: {})".format(k, v)` of one candidate. -/
def display (k : String) (v : Nat) : String :=
  "(" ++ k ++ ": " ++ toString v ++ ")"

/-- The choice list built by `prompt_options`: the candidates sorted by
descending count, each rendered with `display`, followed by the
trailing `None` ("none of the above") choice. -/
def prompt_choices (values : List (String × Nat)) : List (Option String) :=
  ((sorted_desc values).map (fun kv => some (display kv.1 kv.2))) ++ [none]

/-- What the human chooser does at one prompt: select one of the
offered choices, or cancel with a keyboard interrupt (which
`inquirer.prompt` re-raises because of `raise_keyboard_interrupt=True`). -/
inductive ChooserResult where
  | selected (sel : Option String)
  | interrupt
deriving Repr, DecidableEq

/-- `save_answer(answer, dest_path)`: append one JSON line, creating
the file when absent; opening a directory path for append raises
`IsADirectoryError`, modelled by `.error`. -/
def save_answer (answer : Record) (st : PathState) : Except Unit PathState :=
  match st with
  | .directory => .error ()
  | .absent => .ok (.file [answer])
  | .file lines => .ok (.file (lines ++ [answer]))

/-- How a labelling run ended: the loop completed; the human cancelled
(`sys.exit(0)`); an `IsADirectoryError` escaped from a file operation;
or an `AttributeError` escaped from `resolve_answer`. -/
inductive LabelOutcome where
  | completed
  | interrupted
  | ioErr
  | regexErr
deriving Repr, DecidableEq

/-- The exit status explicitly requested by the run: `sys.exit(0)` on
keyboard interrupt, nothing otherwise. -/
def LabelOutcome.exitCode : LabelOutcome → Option Nat
  | .interrupted => some 0
  | _ => none

/-- Observable result of a labelling run: the keys whose prompt was
presented (in order), the final state of the destination path, and how
the run ended. -/
structure LabelRun where
  prompted : List String
  finalState : PathState
  outcome : LabelOutcome
deriving Repr, DecidableEq

/-- The `for key, values in flair_data.items()` loop of `label_keys`:
prompt, catch only `KeyboardInterrupt` (then `sys.exit(0)`), otherwise
resolve the answer and append it to the log immediately. -/
def label_loop (chooser : String → List (Option String) → ChooserResult) :
    List (String × List (String × Nat)) → PathState → LabelRun
  | [], st => ⟨[], st, .completed⟩
  | (key, values) :: rest, st =>
    match chooser key (prompt_choices values) with
    | .interrupt => ⟨[key], st, .interrupted⟩
    | .selected sel =>
      match resolve_answer key sel with
      | .error _ => ⟨[key], st, .regexErr⟩
      | .ok answer =>
        match save_answer answer st with
        | .error _ => ⟨[key], st, .ioErr⟩
        | .ok st' =>
          let r := label_loop chooser rest st'
          ⟨key :: r.prompted, r.finalState, r.outcome⟩

/-- `label_keys(flair_data, dest_path, continue_labelling)`: when not
continuing, `dest_path.open("w").close()` truncates the destination to
an empty file (raising `IsADirectoryError` on a directory) before the
loop runs. -/
def label_keys (chooser : String → List (Option String) → ChooserResult)
    (flair_data : List (String × List (String × Nat))) (st : PathState)
    (continue_labelling : Bool) : LabelRun :=
  if continue_labelling then label_loop chooser flair_data st
  else
    match st with
    | .directory => ⟨[], st, .ioErr⟩
    | _ => label_loop chooser flair_data (.file [])

/-- `main(flair_data, dest_path, continue_labelling)` of
`select_flair_labels.py`: when continuing and the destination exists as
a regular file, collect the keys of its lines and filter them out of
the flair table; otherwise only ensure the parent folder exists (not
modelled further).  Then run `label_keys`. -/
def main (chooser : String → List (Option String) → ChooserResult)
    (flair_data : List (String × List (String × Nat))) (st : PathState)
    (continue_labelling : Bool) : LabelRun :=
  match continue_labelling, st with
  | true, .file lines =>
    let labelled_keys := lines.map Record.key
    let fd := flair_data.filter (fun kv => !(labelled_keys.contains kv.1))
    label_keys chooser fd (.file lines) true
  | _, _ => label_keys chooser flair_data st continue_labelling

end SelectFlair


namespace SelectFlair

lemma resolve_answer_key (k : String) (sel : Option String) (r : Record)
    (h : resolve_answer k sel = .ok r) : r.key = k := by
  cases sel with
  | none =>
    simp only [resolve_answer, Except.ok.injEq] at h
    rw [← h]
  | some s =>
    rw [resolve_answer] at h
    by_cases hs : s = ""
    · rw [if_pos hs, Except.ok.injEq] at h
      rw [← h]
    · rw [if_neg hs] at h
      cases hm : regex_search s.data with
      | some m =>
        rw [hm, Except.ok.injEq] at h
        rw [← h]
      | none => rw [hm] at h; exact absurd h (by simp)

lemma label_loop_cons_interrupt
    (chooser : String → List (Option String) → ChooserResult)
    (key : String) (values : List (String × Nat))
    (rest : List (String × List (String × Nat))) (st : PathState)
    (hch : chooser key (prompt_choices values) = .interrupt) :
    label_loop chooser ((key, values) :: rest) st =
      ⟨[key], st, .interrupted⟩ := by
  simp only [label_loop, hch]

lemma label_loop_cons_regexErr
    (chooser : String → List (Option String) → ChooserResult)
    (key : String) (values : List (String × Nat))
    (rest : List (String × List (String × Nat))) (st : PathState)
    (sel : Option String) (e : Unit)
    (hch : chooser key (prompt_choices values) = .selected sel)
    (hres : resolve_answer key sel = .error e) :
    label_loop chooser ((key, values) :: rest) st =
      ⟨[key], st, .regexErr⟩ := by
  simp only [label_loop, hch, hres]

lemma label_loop_cons_ioErr
    (chooser : String → List (Option String) → ChooserResult)
    (key : String) (values : List (String × Nat))
    (rest : List (String × List (String × Nat))) (st : PathState)
    (sel : Option String) (answer : Record) (e : Unit)
    (hch : chooser key (prompt_choices values) = .selected sel)
    (hres : resolve_answer key sel = .ok answer)
    (hsave : save_answer answer st = .error e) :
    label_loop chooser ((key, values) :: rest) st =
      ⟨[key], st, .ioErr⟩ := by
  simp only [label_loop, hch, hres, hsave]

lemma label_loop_cons_ok
    (chooser : String → List (Option String) → ChooserResult)
    (key : String) (values : List (String × Nat))
    (rest : List (String × List (String × Nat))) (st : PathState)
    (sel : Option String) (answer : Record) (st' : PathState)
    (hch : chooser key (prompt_choices values) = .selected sel)
    (hres : resolve_answer key sel = .ok answer)
    (hsave : save_answer answer st = .ok st') :
    label_loop chooser ((key, values) :: rest) st =
      ⟨key :: (label_loop chooser rest st').prompted,
        (label_loop chooser rest st').finalState,
        (label_loop chooser rest st').outcome⟩ := by
  simp only [label_loop, hch, hres, hsave]

/-- A completed loop prompted every key of its table, in order. -/
lemma label_loop_completed_prompted
    (chooser : String → List (Option String) → ChooserResult) :
    ∀ (fd : List (String × List (String × Nat))) (st : PathState),
      (label_loop chooser fd st).outcome = .completed →
      (label_loop chooser fd st).prompted = fd.map Prod.fst := by
  intro fd
  induction fd with
  | nil => intro st _; rfl
  | cons kv rest ih =>
    intro st h
    obtain ⟨key, values⟩ := kv
    cases hch : chooser key (prompt_choices values) with
    | interrupt =>
      rw [label_loop_cons_interrupt chooser key values rest st hch] at h
      exact absurd h (fun hc => LabelOutcome.noConfusion hc)
    | selected sel =>
      cases hres : resolve_answer key sel with
      | error e =>
        rw [label_loop_cons_regexErr chooser key values rest st sel e hch hres]
          at h
        exact absurd h (fun hc => LabelOutcome.noConfusion hc)
      | ok answer =>
        cases hsave : save_answer answer st with
        | error e =>
          rw [label_loop_cons_ioErr chooser key values rest st sel answer e hch
            hres hsave] at h
          exact absurd h (fun hc => LabelOutcome.noConfusion hc)
        | ok st' =>
          rw [label_loop_cons_ok chooser key values rest st sel answer st' hch
            hres hsave] at h ⊢
          show key :: (label_loop chooser rest st').prompted =
            key :: rest.map Prod.fst
          rw [ih st' h]

/-- The loop only ever appends to an existing log file. -/
lemma label_loop_file_appends
    (chooser : String → List (Option String) → ChooserResult) :
    ∀ (fd : List (String × List (String × Nat))) (ls : List Record),
      ∃ app, (label_loop chooser fd (.file ls)).finalState =
        .file (ls ++ app) := by
  intro fd
  induction fd with
  | nil => intro ls; exact ⟨[], by simp [label_loop]⟩
  | cons kv rest ih =>
    intro ls
    obtain ⟨key, values⟩ := kv
    cases hch : chooser key (prompt_choices values) with
    | interrupt =>
      refine ⟨[], ?_⟩
      rw [label_loop_cons_interrupt chooser key values rest _ hch]
      simp
    | selected sel =>
      cases hres : resolve_answer key sel with
      | error e =>
        refine ⟨[], ?_⟩
        rw [label_loop_cons_regexErr chooser key values rest _ sel e hch hres]
        simp
      | ok answer =>
        obtain ⟨app, happ⟩ := ih (ls ++ [answer])
        refine ⟨answer :: app, ?_⟩
        rw [label_loop_cons_ok chooser key values rest (.file ls) sel answer
          (.file (ls ++ [answer])) hch hres rfl]
        show (label_loop chooser rest (.file (ls ++ [answer]))).finalState =
          .file (ls ++ answer :: app)
        rw [happ, List.append_assoc, List.singleton_append]

/-- The prompted keys and the outcome do not depend on the prior
content of the log file. -/
lemma label_loop_file_content_irrelevant
    (chooser : String → List (Option String) → ChooserResult) :
    ∀ (fd : List (String × List (String × Nat))) (ls ls' : List Record),
      (label_loop chooser fd (.file ls)).prompted =
        (label_loop chooser fd (.file ls')).prompted ∧
      (label_loop chooser fd (.file ls)).outcome =
        (label_loop chooser fd (.file ls')).outcome := by
  intro fd
  induction fd with
  | nil => intro ls ls'; exact ⟨rfl, rfl⟩
  | cons kv rest ih =>
    intro ls ls'
    obtain ⟨key, values⟩ := kv
    cases hch : chooser key (prompt_choices values) with
    | interrupt =>
      rw [label_loop_cons_interrupt chooser key values rest _ hch,
        label_loop_cons_interrupt chooser key values rest _ hch]
      exact ⟨rfl, rfl⟩
    | selected sel =>
      cases hres : resolve_answer key sel with
      | error e =>
        rw [label_loop_cons_regexErr chooser key values rest _ sel e hch hres,
          label_loop_cons_regexErr chooser key values rest _ sel e hch hres]
        exact ⟨rfl, rfl⟩
      | ok answer =>
        obtain ⟨h1, h2⟩ := ih (ls ++ [answer]) (ls' ++ [answer])
        rw [label_loop_cons_ok chooser key values rest (.file ls) sel answer
          (.file (ls ++ [answer])) hch hres rfl,
          label_loop_cons_ok chooser key values rest (.file ls') sel answer
          (.file (ls' ++ [answer])) hch hres rfl]
        exact ⟨by show key :: _ = key :: _; rw [h1], h2⟩


/-- C7: with `continue` true and an existing destination log file, a
completed run prompts exactly the keys of the candidate table whose key
does not appear on any line of the log, and the log is only appended
to, never truncated; which keys are prompted depends only on the log's
key set (not on line order or multiplicity); with `continue` false, any
prior log content is discarded before starting (the run coincides with
a run on an absent file) and a completed run prompts every key of the
table. -/
theorem main_resume_spec :
    (∀ (chooser : String → List (Option String) → ChooserResult) fd lines,
      (main chooser fd (.file lines) true).outcome = .completed →
      (main chooser fd (.file lines) true).prompted =
        (fd.filter
          (fun kv => !((lines.map Record.key).contains kv.1))).map Prod.fst) ∧
    (∀ (chooser : String → List (Option String) → ChooserResult) fd lines,
      ∃ app, (main chooser fd (.file lines) true).finalState =
        .file (lines ++ app)) ∧
    (∀ (chooser : String → List (Option String) → ChooserResult) fd lines
        lines2,
      (∀ k, (lines.map Record.key).contains k =
        (lines2.map Record.key).contains k) →
      (main chooser fd (.file lines) true).prompted =
        (main chooser fd (.file lines2) true).prompted) ∧
    (∀ (chooser : String → List (Option String) → ChooserResult) fd lines,
      main chooser fd (.file lines) false = main chooser fd .absent false) ∧
    (∀ (chooser : String → List (Option String) → ChooserResult) fd
        (st : PathState),
      st ≠ .directory → (main chooser fd st false).outcome = .completed →
      (main chooser fd st false).prompted = fd.map Prod.fst) := by
  refine ⟨?_, ?_, ?_, ?_, ?_⟩
  · intro chooser fd lines h
    exact label_loop_completed_prompted chooser _ _ h
  · intro chooser fd lines
    exact label_loop_file_appends chooser _ lines
  · intro chooser fd lines lines2 hkeys
    have hfilter :
        fd.filter (fun kv => !((lines.map Record.key).contains kv.1)) =
          fd.filter (fun kv => !((lines2.map Record.key).contains kv.1)) :=
      List.filter_congr (fun kv _ => by rw [hkeys kv.1])
    show (label_loop chooser
        (fd.filter (fun kv => !((lines.map Record.key).contains kv.1)))
        (.file lines)).prompted =
      (label_loop chooser
        (fd.filter (fun kv => !((lines2.map Record.key).contains kv.1)))
        (.file lines2)).prompted
    rw [hfilter]
    exact (label_loop_file_content_irrelevant chooser _ lines lines2).1
  · intro chooser fd lines
    rfl
  · intro chooser fd st hdir h
    cases st with
    | absent => exact label_loop_completed_prompted chooser _ _ h
    | directory => exact absurd rfl hdir
    | file lines => exact label_loop_completed_prompted chooser _ _ h

/-- A three-key candidate table. -/
def fd3 : List (String × List (String × Nat)) :=
  [("a", [("x", 1)]), ("b", [("y", 2)]), ("c", [("z", 3)])]

/-- A log already containing decisions for keys "a" and "b". -/
def linesAB : List Record := [⟨"a", some "x", false⟩, ⟨"b", none, false⟩]

/-- A chooser that always picks the trailing "none of the above"
choice. -/
def chooserNone : String → List (Option String) → ChooserResult :=
  fun _ _ => .selected none

/-- Witness for C7: with keys a, b already logged and `continue` true,
only key c is prompted; with `continue` false all three keys are
prompted. -/
theorem main_resume_spec_witness :
    (main chooserNone fd3 (.file linesAB) true).prompted = ["c"] ∧
    (main chooserNone fd3 .absent false).prompted = ["a", "b", "c"] := by
  constructor
  · exact (main_resume_spec.1 chooserNone fd3 linesAB rfl).trans (by decide)
  · exact (main_resume_spec.2.2.2.2 chooserNone fd3 .absent (by decide)
      rfl).trans (by decide)


/-- C9: each decision is appended to the log immediately after it is
made (never batched), and a keyboard interrupt at the chooser prompt
terminates the run at once with exit status 0; hence an interruption
leaves on disk the original lines followed by exactly one record per
key decided before the interrupted prompt, in order — only the current
key's decision is lost. -/
theorem label_loop_interrupt_spec
    (chooser : String → List (Option String) → ChooserResult)
    (fd : List (String × List (String × Nat))) (ls : List Record)
    (h : (label_loop chooser fd (.file ls)).outcome = .interrupted) :
    ∃ recs k, (label_loop chooser fd (.file ls)).finalState =
        .file (ls ++ recs) ∧
      (label_loop chooser fd (.file ls)).prompted =
        recs.map Record.key ++ [k] ∧
      ((label_loop chooser fd (.file ls)).outcome).exitCode = some 0 := by
  induction fd generalizing ls with
  | nil => exact absurd h (fun hc => LabelOutcome.noConfusion hc)
  | cons kv rest ih =>
    obtain ⟨key, values⟩ := kv
    cases hch : chooser key (prompt_choices values) with
    | interrupt =>
      rw [label_loop_cons_interrupt chooser key values rest _ hch]
      exact ⟨[], key, by simp, rfl, rfl⟩
    | selected sel =>
      cases hres : resolve_answer key sel with
      | error e =>
        rw [label_loop_cons_regexErr chooser key values rest _ sel e hch hres]
          at h
        exact absurd h (fun hc => LabelOutcome.noConfusion hc)
      | ok answer =>
        rw [label_loop_cons_ok chooser key values rest (.file ls) sel answer
          (.file (ls ++ [answer])) hch hres rfl] at h ⊢
        obtain ⟨recs, k, h1, h2, h3⟩ := ih (ls ++ [answer]) h
        refine ⟨answer :: recs, k, ?_, ?_, ?_⟩
        · show (label_loop chooser rest
              (.file (ls ++ [answer]))).finalState =
            .file (ls ++ answer :: recs)
          rw [h1, List.append_assoc, List.singleton_append]
        · show key :: (label_loop chooser rest
              (.file (ls ++ [answer]))).prompted =
            (answer :: recs).map Record.key ++ [k]
          rw [h2, List.map_cons, resolve_answer_key key sel answer hres,
            List.cons_append]
        · show ((label_loop chooser rest
              (.file (ls ++ [answer]))).outcome).exitCode = some 0
          exact h3

/-- A chooser that interrupts at key "c" and otherwise selects the
trailing "none of the above" choice. -/
def chooserIntC : String → List (Option String) → ChooserResult :=
  fun k _ => if k = "c" then .interrupt else .selected none

/-- Witness for C9: interrupted at the third key of `fd3`, exactly the
two earlier decisions are persisted and the exit status is 0. -/
theorem label_loop_interrupt_spec_witness :
    ∃ recs k, (label_loop chooserIntC fd3 (.file [])).finalState =
        .file ([] ++ recs) ∧
      (label_loop chooserIntC fd3 (.file [])).prompted =
        recs.map Record.key ++ [k] ∧
      ((label_loop chooserIntC fd3 (.file [])).outcome).exitCode = some 0 :=
  label_loop_interrupt_spec chooserIntC fd3 [] rfl

/-- A two-key candidate table. -/
def fdTwo : List (String × List (String × Nat)) :=
  [("k1", [("v", 1)]), ("k2", [("w", 2)])]

/-- Counterexample to C10 as stated: when `continue` is true but the
destination path exists and is not a regular file (a directory), the
labeler does not prompt every key of the table: the first append
raises `IsADirectoryError`, so the run aborts after the first
prompt. -/
theorem main_continue_directory_counterexample :
    (main chooserNone fdTwo .directory true).prompted ≠
        fdTwo.map Prod.fst ∧
      (main chooserNone fdTwo .directory true).outcome = .ioErr := by
  constructor
  · decide
  · rfl

/-- Under an absent starting path, the final path state is a file
exactly when at least one record was appended; otherwise the path
remains absent. -/
lemma label_loop_absent_creates
    (chooser : String → List (Option String) → ChooserResult) :
    ∀ fd, ∃ recs : List Record,
      (label_loop chooser fd .absent).finalState =
        (if recs.isEmpty then PathState.absent else .file recs) := by
  intro fd
  cases fd with
  | nil => exact ⟨[], rfl⟩
  | cons kv rest =>
    obtain ⟨key, values⟩ := kv
    cases hch : chooser key (prompt_choices values) with
    | interrupt =>
      exact ⟨[], by
        rw [label_loop_cons_interrupt chooser key values rest _ hch]; rfl⟩
    | selected sel =>
      cases hres : resolve_answer key sel with
      | error e =>
        exact ⟨[], by
          rw [label_loop_cons_regexErr chooser key values rest _ sel e hch
            hres]; rfl⟩
      | ok answer =>
        obtain ⟨app, happ⟩ := label_loop_file_appends chooser rest [answer]
        refine ⟨answer :: app, ?_⟩
        rw [label_loop_cons_ok chooser key values rest .absent sel answer
          (.file [answer]) hch hres rfl]
        show (label_loop chooser rest (.file [answer])).finalState = _
        rw [happ]
        rfl

/-- C10 (amended): with `continue` true and an absent destination
path, the labeler truncates nothing and pre-filters nothing — the run
is the plain loop over the full candidate table — a completed run
prompts every key, and the log file comes into existence only when a
first decision is appended (the path stays absent when none is).  When
the path exists but is not a regular file, the keys are likewise not
pre-filtered, but the first append fails, as the counterexample
records. -/
theorem main_continue_absent_spec :
    (∀ (chooser : String → List (Option String) → ChooserResult) fd,
      main chooser fd .absent true = label_loop chooser fd .absent) ∧
    (∀ (chooser : String → List (Option String) → ChooserResult) fd,
      (main chooser fd .absent true).outcome = .completed →
      (main chooser fd .absent true).prompted = fd.map Prod.fst) ∧
    (∀ (chooser : String → List (Option String) → ChooserResult) fd,
      ∃ recs : List Record,
        (main chooser fd .absent true).finalState =
          (if recs.isEmpty then PathState.absent else .file recs)) := by
  refine ⟨?_, ?_, ?_⟩
  · intro chooser fd; rfl
  · intro chooser fd h
    exact label_loop_completed_prompted chooser _ _ h
  · intro chooser fd
    exact label_loop_absent_creates chooser fd

/-- Witness for C10 (amended): on an absent path with `continue` true,
both keys of `fdTwo` are prompted. -/
theorem main_continue_absent_spec_witness :
    (main chooserNone fdTwo .absent true).prompted = ["k1", "k2"] :=
  (main_continue_absent_spec.2.1 chooserNone fdTwo rfl).trans (by decide)


lemma digitChar_safe : ∀ m, m < 10 →
    Nat.digitChar m ≠ ':' ∧ Nat.digitChar m ≠ '\n' := by decide

lemma toDigitsCore_safe :
    ∀ (fuel n : Nat) (acc : List Char),
      (∀ c ∈ acc, c ≠ ':' ∧ c ≠ '\n') →
      ∀ c ∈ Nat.toDigitsCore 10 fuel n acc, c ≠ ':' ∧ c ≠ '\n' := by
  intro fuel
  induction fuel with
  | zero => intro n acc hacc c hc; exact hacc c hc
  | succ f ih =>
    intro n acc hacc c hc
    simp only [Nat.toDigitsCore] at hc
    by_cases hz : n / 10 = 0
    · rw [if_pos hz] at hc
      rcases List.mem_cons.mp hc with hd | hmem
      · rw [hd]
        exact digitChar_safe (n % 10) (Nat.mod_lt n (by norm_num))
      · exact hacc c hmem
    · rw [if_neg hz] at hc
      refine ih (n / 10) (Nat.digitChar (n % 10) :: acc) ?_ c hc
      intro x hx
      rcases List.mem_cons.mp hx with hd | hmem
      · rw [hd]
        exact digitChar_safe (n % 10) (Nat.mod_lt n (by norm_num))
      · exact hacc x hmem

/-- The decimal rendering of a natural number contains neither a colon
nor a newline. -/
lemma toString_nat_safe (n : Nat) :
    ∀ c ∈ (toString n).data, c ≠ ':' ∧ c ≠ '\n' := by
  intro c hc
  have hrepr : (toString n).data = Nat.toDigitsCore 10 (n + 1) n [] := rfl
  rw [hrepr] at hc
  exact toDigitsCore_safe (n + 1) n []
    (fun x hx => absurd hx (List.not_mem_nil x)) c hc

lemma last_colon_idx_of_no_colon : ∀ l : List Char, (∀ c ∈ l, c ≠ ':') →
    last_colon_idx l = none := by
  intro l
  induction l with
  | nil => intro _; rfl
  | cons c rest ih =>
    intro h
    simp only [last_colon_idx,
      ih (fun x hx => h x (List.mem_cons_of_mem c hx))]
    rw [if_neg (h c (List.mem_cons_self c rest))]

lemma last_colon_idx_append (l1 l2 : List Char)
    (h2 : ∀ c ∈ l2, c ≠ ':') :
    last_colon_idx (l1 ++ ':' :: l2) = some l1.length := by
  induction l1 with
  | nil =>
    simp only [List.nil_append, last_colon_idx,
      last_colon_idx_of_no_colon l2 h2, List.length_nil]
    rfl
  | cons c l1 ih =>
    simp only [List.cons_append, last_colon_idx, List.append_eq, ih,
      List.length_cons]

lemma takeWhile_no_newline (l : List Char) (h : ∀ c ∈ l, c ≠ '\n') :
    l.takeWhile (fun c => c ≠ '\n') = l :=
  List.takeWhile_eq_self_iff.mpr (fun c hc => decide_eq_true (h c hc))

/-- On input of the shape `l1 ++ ':' :: l2` with l1 newline-free and
non-empty and l2 colon-free, the greedy match finds exactly `l1`. -/
lemma match_at_spec (l1 l2 : List Char) (h1n : ∀ c ∈ l1, c ≠ '\n')
    (h1e : l1 ≠ []) (h2c : ∀ c ∈ l2, c ≠ ':')
    (h2n : ∀ c ∈ l2, c ≠ '\n') :
    match_at (l1 ++ ':' :: l2) = some l1 := by
  have hall : ∀ c ∈ l1 ++ ':' :: l2, c ≠ '\n' := by
    intro c hc
    rcases List.mem_append.mp hc with hm | hm
    · exact h1n c hm
    · rcases List.mem_cons.mp hm with hm | hm
      · rw [hm]; decide
      · exact h2n c hm
  simp only [match_at, takeWhile_no_newline _ hall,
    last_colon_idx_append l1 l2 h2c]
  rw [if_pos ?_, List.take_left l1 (':' :: l2)]
  cases l1 with
  | nil => exact absurd rfl h1e
  | cons a t => exact Nat.succ_le_succ (Nat.zero_le _)

lemma regex_search_display (l1 l2 : List Char)
    (h1n : ∀ c ∈ l1, c ≠ '\n') (h1e : l1 ≠ [])
    (h2c : ∀ c ∈ l2, c ≠ ':') (h2n : ∀ c ∈ l2, c ≠ '\n') :
    regex_search ('(' :: (l1 ++ ':' :: l2)) = some l1 := by
  rw [regex_search, if_pos rfl, match_at_spec l1 l2 h1n h1e h2c h2n]

/-- C8: selecting a candidate displayed as `(label: count)` stores as
`value` exactly the label (the text between the opening parenthesis
and the display's colon), for every label that is non-empty and
newline-free and every count; selecting the trailing "none of the
above" choice stores `value = None`; `needs_review` stays false. -/
theorem resolve_answer_spec :
    (∀ (k label : String) (n : Nat), label ≠ "" →
      (∀ c ∈ label.data, c ≠ '\n') →
      resolve_answer k (some (display label n)) =
        .ok ⟨k, some label, false⟩) ∧
    (∀ k : String, resolve_answer k none = .ok ⟨k, none, false⟩) := by
  constructor
  · intro k label n hne hnl
    have hdata : (display label n).data =
        '(' :: (label.data ++ ':' ::
          (' ' :: ((toString n).data ++ [')']))) := by
      show ("(" ++ label ++ ": " ++ toString n ++ ")").data = _
      simp [String.data_append, List.append_assoc]
    have hlbl_ne : label.data ≠ [] := by
      intro hc
      exact hne (String.ext hc)
    have h2c : ∀ c ∈ (' ' :: ((toString n).data ++ [')'])), c ≠ ':' := by
      intro c hc
      rcases List.mem_cons.mp hc with hm | hm
      · rw [hm]; decide
      · rcases List.mem_append.mp hm with hm | hm
        · exact (toString_nat_safe n c hm).1
        · rcases List.mem_singleton.mp hm with hm
          rw [hm]; decide
    have h2n : ∀ c ∈ (' ' :: ((toString n).data ++ [')'])), c ≠ '\n' := by
      intro c hc
      rcases List.mem_cons.mp hc with hm | hm
      · rw [hm]; decide
      · rcases List.mem_append.mp hm with hm | hm
        · exact (toString_nat_safe n c hm).2
        · rcases List.mem_singleton.mp hm with hm
          rw [hm]; decide
    have hdisp : display label n ≠ "" := by
      intro hc
      rw [hc] at hdata
      exact List.noConfusion hdata
    rw [resolve_answer, if_neg hdisp, hdata,
      regex_search_display label.data _ hnl hlbl_ne h2c h2n]
  · intro k
    rfl

/-- Witness for C8: selecting the display string `(russia: 42)` stores
the value `russia`; selecting the "none" choice stores no value. -/
theorem resolve_answer_spec_witness :
    resolve_answer "flair7" (some "(russia: 42)") =
        .ok ⟨"flair7", some "russia", false⟩ ∧
      resolve_answer "flair7" none = .ok ⟨"flair7", none, false⟩ := by
  constructor
  · exact resolve_answer_spec.1 "flair7" "russia" 42 (by decide) (by decide)
  · exact resolve_answer_spec.2 "flair7"

end SelectFlair
